import Mathlib

/-!
Verification of the migration engine in src/src/index.ts against its design
spec.  The identity-map layer (mapPut / mapGet / resolveId / mapPutBoth /
mapGetAny), the orchestration loop (runJob / main) and the control tables
(migration_runs, migration_errors, migration_checkpoints, migration_map from
sql/control_tables.sql) are embedded shallowly: the persisted Postgres state
is passed explicitly, JavaScript values that can be strings, numbers, null or
undefined are modelled by the inductive JsVal, and the nondeterministic
uuidv7() mint is threaded as an explicit fresh parameter.
-/

set_option maxRecDepth 4000

namespace Migration

/-- Model of the JavaScript values the identity-map layer receives as legacy
identifiers: strings, numbers (the legacy integer sequence keys), null and
undefined. -/
inductive JsVal where
  | str (s : String)
  | num (n : Int)
  | null
  | undef
deriving DecidableEq

/-- JavaScript String(v) conversion as applied by mapPut / mapGet /
normalizeLegacyId in index.ts.  String(n) of an integer prints the decimal
form, String(null) is "null", String(undefined) is "undefined". -/
def jsString : JsVal → String
  | .str s => s
  | .num n => toString n
  | .null => "null"
  | .undef => "undefined"

/-- Helper for jsTrim: drop leading whitespace characters. -/
def trimListLeft : List Char → List Char
  | [] => []
  | c :: cs => if c.isWhitespace then trimListLeft cs else c :: cs

/-- JavaScript String.prototype.trim as used by normalizeLegacyId (index.ts
line 264): strips whitespace from both ends of the string. -/
def jsTrim (s : String) : String :=
  ⟨(trimListLeft ((trimListLeft s.data).reverse)).reverse⟩

/-- A value acceptable for the string | number parameter types of mapPut and
resolveId commits (line 228-239): a string or a number, not null/undefined. -/
def JsVal.isKey : JsVal → Bool
  | .str _ => true
  | .num _ => true
  | .null => false
  | .undef => false

/-- One row of the migration_map control table (sql/control_tables.sql lines
25-33): primary key (entity, legacy_id), payload new_id.  source_hash and
migrated_at carry no claim-relevant information and are omitted. -/
structure MapEntry where
  entity : String
  legacy_id : String
  new_id : String
deriving DecidableEq

/-- The SQL upsert under primary key (entity, legacy_id):
insert ... on conflict (entity, legacy_id) do update set new_id=excluded.new_id
(index.ts lines 233-237).  The first row with the key is updated in place
(the primary key guarantees at most one), otherwise the row is appended. -/
def putStr : List MapEntry → String → String → String → List MapEntry
  | [], e, l, n => [⟨e, l, n⟩]
  | r :: rs, e, l, n =>
    if r.entity == e && r.legacy_id == l then ⟨e, l, n⟩ :: rs
    else r :: putStr rs e l n

/-- The SQL point lookup
select new_id from migration_map where entity=$1 and legacy_id=$2
(index.ts lines 246-249). -/
def mapLookup : List MapEntry → String → String → Option String
  | [], _, _ => none
  | r :: rs, e, l =>
    if r.entity == e && r.legacy_id == l then some r.new_id
    else mapLookup rs e l

/-- mapPut (index.ts lines 228-239): stores String(legacyId) under the
(entity, legacy_id) primary key, overwriting new_id on conflict. -/
def mapPut (m : List MapEntry) (entity : String) (legacyId : JsVal)
    (newId : String) : List MapEntry :=
  putStr m entity (jsString legacyId) newId

/-- mapGet (index.ts lines 241-251): returns null immediately for null or
undefined legacy ids, before the select; otherwise looks up
String(legacyId). -/
def mapGet (m : List MapEntry) (entity : String) (legacyId : JsVal) :
    Option String :=
  match legacyId with
  | .null => none
  | .undef => none
  | v => mapLookup m entity (jsString v)

/-- resolveId (index.ts lines 253-259): the existing mapping if present,
otherwise the freshly minted uuidv7 (passed here explicitly as fresh).
existing ?? newId() keeps any non-null string, including the empty one. -/
def resolveId (m : List MapEntry) (entity : String) (legacyId : JsVal)
    (fresh : String) : String :=
  (mapGet m entity legacyId).getD fresh

/-- normalizeLegacyId (index.ts lines 262-266): null for null/undefined,
otherwise String(v).trim(), turned into null when empty. -/
def normalizeLegacyId : JsVal → Option String
  | .null => none
  | .undef => none
  | v =>
    let s := jsTrim (jsString v)
    if s == "" then none else some s

/-- mapPutBoth (index.ts lines 272-282): normalizes both candidate legacy
keys, commits the first when present, and commits the second when present
and different from the first. -/
def mapPutBoth (m : List MapEntry) (entity : String)
    (legacyInt legacyUuid : JsVal) (newId : String) : List MapEntry :=
  let a := normalizeLegacyId legacyInt
  let b := normalizeLegacyId legacyUuid
  let m1 :=
    match a with
    | some s => mapPut m entity (.str s) newId
    | none => m
  match b with
  | some s => if a ≠ some s then mapPut m1 entity (.str s) newId else m1
  | none => m1

/-- mapGetAny (index.ts lines 285-293): tries the candidates in order,
skipping those whose normalization is null; a found id is returned only when
truthy, i.e. non-empty (the JavaScript test if (id) return id). -/
def mapGetAny (m : List MapEntry) (entity : String) :
    List JsVal → Option String
  | [] => none
  | c :: rest =>
    match normalizeLegacyId c with
    | none => mapGetAny m entity rest
    | some v =>
      match mapGet m entity (.str v) with
      | some id => if id ≠ "" then some id else mapGetAny m entity rest
      | none => mapGetAny m entity rest

/-- Modelled from the spec: getAny tries each candidate key in order,
normalizing empty/null candidates out, and returns the first hit - the first
candidate whose mapping exists, with no truthiness test on the stored id.
Used only to compare mapGetAny against the spec wording. -/
def specGetAny (m : List MapEntry) (entity : String) :
    List JsVal → Option String
  | [] => none
  | c :: rest =>
    match normalizeLegacyId c with
    | none => specGetAny m entity rest
    | some v =>
      match mapLookup m entity v with
      | some id => some id
      | none => specGetAny m entity rest

theorem mapLookup_putStr_self (m : List MapEntry) (e l n : String) :
    mapLookup (putStr m e l n) e l = some n := by
  induction m with
  | nil => simp [putStr, mapLookup]
  | cons r rs ih =>
    by_cases hc : (r.entity == e && r.legacy_id == l) = true
    · simp [putStr, hc, mapLookup]
    · simp [putStr, hc, mapLookup, ih]

theorem mapLookup_putStr_ne (m : List MapEntry) (e l n e2 l2 : String)
    (h : ¬(e2 = e ∧ l2 = l)) :
    mapLookup (putStr m e l n) e2 l2 = mapLookup m e2 l2 := by
  have hkey : ¬(e == e2 && l == l2) = true := by
    intro hk
    exact h ⟨(beq_iff_eq.mp (Bool.and_elim_left hk)).symm,
      (beq_iff_eq.mp (Bool.and_elim_right hk)).symm⟩
  induction m with
  | nil => simp [putStr, mapLookup, hkey]
  | cons r rs ih =>
    by_cases hc : (r.entity == e && r.legacy_id == l) = true
    · have he : r.entity = e := beq_iff_eq.mp (Bool.and_elim_left hc)
      have hl : r.legacy_id = l := beq_iff_eq.mp (Bool.and_elim_right hc)
      have hr : ¬(r.entity == e2 && r.legacy_id == l2) = true := by
        rw [he, hl]; exact hkey
      simp [putStr, hc, mapLookup, hkey, hr]
    · by_cases hr : (r.entity == e2 && r.legacy_id == l2) = true
      · simp [putStr, hc, mapLookup, hr]
      · simp [putStr, hc, mapLookup, hr, ih]

theorem mapLookup_mem_new_id (m : List MapEntry) (e l id : String)
    (h : mapLookup m e l = some id) : ∃ r ∈ m, r.new_id = id := by
  induction m with
  | nil => simp [mapLookup] at h
  | cons r rs ih =>
    by_cases hc : (r.entity == e && r.legacy_id == l) = true
    · simp [mapLookup, hc] at h
      exact ⟨r, List.mem_cons_self r rs, h⟩
    · simp [mapLookup, hc] at h
      rcases ih h with ⟨r2, hmem, hid⟩
      exact ⟨r2, List.mem_cons_of_mem r hmem, hid⟩

/-- C1: resolve-then-commit is idempotent.  For every persisted map, entity E
and legacy id L (a string or number), if the first resolveId yields the
canonical id N (minted fresh or recovered) and mapPut commits (E, L) -> N,
then every later resolveId for (E, L) - in particular one running in a fresh
process over the same persisted map, with a different freshly minted
candidate - returns the same N. -/
theorem c1_resolve_commit_idempotent (m : List MapEntry) (E : String)
    (L : JsVal) (fresh fresh2 : String) (h : L.isKey = true) :
    resolveId (mapPut m E L (resolveId m E L fresh)) E L fresh2 =
      resolveId m E L fresh := by
  cases L with
  | str s => simp [resolveId, mapGet, mapPut, mapLookup_putStr_self]
  | num n => simp [resolveId, mapGet, mapPut, mapLookup_putStr_self]
  | null => simp [JsVal.isKey] at h
  | undef => simp [JsVal.isKey] at h

/-- Witness for C1 at entity "state", legacy id 7: the recommitted resolution
returns the id minted by the first resolution. -/
theorem c1_resolve_commit_idempotent_witness :
    resolveId (mapPut [] "state" (JsVal.num 7)
        (resolveId [] "state" (JsVal.num 7) "id-first")) "state"
        (JsVal.num 7) "id-second" =
      resolveId [] "state" (JsVal.num 7) "id-first" ∧
    resolveId [] "state" (JsVal.num 7) "id-first" = "id-first" :=
  ⟨c1_resolve_commit_idempotent [] "state" (JsVal.num 7) "id-first"
    "id-second" (by decide), by decide⟩

/-- C9: numeric and string forms of the same legacy id are interchangeable.
mapPut and mapGet both key the persisted map by String(legacyId), so a commit
under the number n is found under the string form of n and conversely, and
resolveId agrees. -/
theorem c9_numeric_string_interchange (m : List MapEntry) (E : String)
    (n : Int) (N fresh : String) :
    mapGet (mapPut m E (JsVal.num n) N) E (JsVal.str (toString n)) = some N ∧
    mapGet (mapPut m E (JsVal.str (toString n)) N) E (JsVal.num n) = some N ∧
    resolveId (mapPut m E (JsVal.num n) N) E (JsVal.str (toString n)) fresh
      = N ∧
    resolveId (mapPut m E (JsVal.str (toString n)) N) E (JsVal.num n) fresh
      = N := by
  refine ⟨?_, ?_, ?_, ?_⟩ <;>
    simp [mapGet, mapPut, resolveId, jsString, mapLookup_putStr_self]

/-- C10: mapGet with a null or undefined legacy id returns null immediately:
the result is none and does not depend on the persisted map (the early return
precedes the select), and the pure model has no side effects. -/
theorem c10_null_get_short_circuit (m m2 : List MapEntry) (E : String) :
    mapGet m E JsVal.null = none ∧
    mapGet m E JsVal.undef = none ∧
    mapGet m E JsVal.null = mapGet m2 E JsVal.null ∧
    mapGet m E JsVal.undef = mapGet m2 E JsVal.undef := by
  simp [mapGet]

theorem normalizeLegacyId_str (A : String) (hA : jsTrim A = A) (hA2 : A ≠ "") :
    normalizeLegacyId (JsVal.str A) = some A := by
  simp [normalizeLegacyId, jsString, hA, hA2]

theorem mapGet_str (m : List MapEntry) (E v : String) :
    mapGet m E (JsVal.str v) = mapLookup m E v := rfl

theorem mapGetAny_eq_specGetAny (m : List MapEntry) (E : String)
    (hm : ∀ r ∈ m, r.new_id ≠ "") (cs : List JsVal) :
    mapGetAny m E cs = specGetAny m E cs := by
  induction cs with
  | nil => rfl
  | cons c rest ih =>
    unfold mapGetAny specGetAny
    cases hn : normalizeLegacyId c with
    | none => simp [hn, ih]
    | some v =>
      cases hl : mapLookup m E v with
      | none => simp [hn, mapGet_str, hl, ih]
      | some id =>
        have hid : id ≠ "" := by
          rcases mapLookup_mem_new_id m E v id hl with ⟨r, hmem, hrid⟩
          exact hrid ▸ hm r hmem
        simp [hn, mapGet_str, hl, hid]

/-- C2 counterexample: the claim quantifies over all distinct non-empty
legacy keys, but mapPutBoth normalizes (trims) its keys before committing
while mapGet looks up the raw String(legacyId).  For the distinct non-empty
keys " 7" and "8", mapPutBoth stores the trimmed "7", so mapGet on " 7"
returns null rather than the committed canonical id N1. -/
theorem c2_dual_key_union_counterexample :
    (" 7" : String) ≠ "8" ∧ (" 7" : String) ≠ "" ∧ ("8" : String) ≠ "" ∧
    mapGet (mapPutBoth [] "company" (JsVal.str " 7") (JsVal.str "8") "N1")
      "company" (JsVal.str " 7") = none := by
  decide

/-- C2 amended: for every entity E and distinct non-empty legacy keys A and B
that are already in normalized form (trimming leaves them unchanged), and a
non-empty canonical id N, after mapPutBoth(E, A, B, N) both mapGet(E, A) and
mapGet(E, B) return N, and mapGetAny(E, A, B) and mapGetAny(E, null, B)
return N.  Moreover, over a map whose stored canonical ids are non-empty
strings (as is the case for the uuidv7 ids the program stores), mapGetAny
agrees with the spec description specGetAny: it tries its candidates in
order, skips candidates that normalize to null/empty, returns the first
candidate's mapping that exists, and returns null when no candidate is
mapped. -/
theorem c2_dual_key_union (m : List MapEntry) (E A B N : String)
    (cs : List JsVal)
    (hA : jsTrim A = A) (hA2 : A ≠ "") (hB : jsTrim B = B) (hB2 : B ≠ "")
    (hAB : A ≠ B) (hN : N ≠ "") (hm : ∀ r ∈ m, r.new_id ≠ "") :
    mapGet (mapPutBoth m E (JsVal.str A) (JsVal.str B) N) E (JsVal.str A)
      = some N ∧
    mapGet (mapPutBoth m E (JsVal.str A) (JsVal.str B) N) E (JsVal.str B)
      = some N ∧
    mapGetAny (mapPutBoth m E (JsVal.str A) (JsVal.str B) N) E
      [JsVal.str A, JsVal.str B] = some N ∧
    mapGetAny (mapPutBoth m E (JsVal.str A) (JsVal.str B) N) E
      [JsVal.null, JsVal.str B] = some N ∧
    mapGetAny m E cs = specGetAny m E cs := by
  have hnA := normalizeLegacyId_str A hA hA2
  have hnB := normalizeLegacyId_str B hB hB2
  have hput : mapPutBoth m E (JsVal.str A) (JsVal.str B) N
      = putStr (putStr m E A N) E B N := by
    simp [mapPutBoth, hnA, hnB, hAB, mapPut, jsString]
  have hgetA : mapGet (mapPutBoth m E (JsVal.str A) (JsVal.str B) N) E
      (JsVal.str A) = some N := by
    rw [hput, mapGet_str, mapLookup_putStr_ne _ _ _ _ _ _ fun hh => hAB hh.2]
    exact mapLookup_putStr_self m E A N
  have hgetB : mapGet (mapPutBoth m E (JsVal.str A) (JsVal.str B) N) E
      (JsVal.str B) = some N := by
    rw [hput, mapGet_str]
    exact mapLookup_putStr_self (putStr m E A N) E B N
  refine ⟨hgetA, hgetB, ?_, ?_, mapGetAny_eq_specGetAny m E hm cs⟩
  · unfold mapGetAny
    simp [hnA, hgetA, hN]
  · unfold mapGetAny
    simp [normalizeLegacyId]
    unfold mapGetAny
    simp [hnB, hgetB, hN]

/-- Witness for C2 at E = "company", A = "7", B = "uuid-abc", N = "N1" over a
base map holding one non-empty mapping, with candidate list
[null, " ", "9"] exercising the mapGetAny/specGetAny agreement. -/
theorem c2_dual_key_union_witness :
    mapGet (mapPutBoth [⟨"company", "9", "Z9"⟩] "company" (JsVal.str "7")
        (JsVal.str "uuid-abc") "N1") "company" (JsVal.str "7") = some "N1" ∧
    mapGet (mapPutBoth [⟨"company", "9", "Z9"⟩] "company" (JsVal.str "7")
        (JsVal.str "uuid-abc") "N1") "company" (JsVal.str "uuid-abc")
      = some "N1" ∧
    mapGetAny (mapPutBoth [⟨"company", "9", "Z9"⟩] "company" (JsVal.str "7")
        (JsVal.str "uuid-abc") "N1") "company"
        [JsVal.str "7", JsVal.str "uuid-abc"] = some "N1" ∧
    mapGetAny (mapPutBoth [⟨"company", "9", "Z9"⟩] "company" (JsVal.str "7")
        (JsVal.str "uuid-abc") "N1") "company"
        [JsVal.null, JsVal.str "uuid-abc"] = some "N1" ∧
    mapGetAny [⟨"company", "9", "Z9"⟩] "company"
        [JsVal.null, JsVal.str " ", JsVal.str "9"]
      = specGetAny [⟨"company", "9", "Z9"⟩] "company"
        [JsVal.null, JsVal.str " ", JsVal.str "9"] :=
  c2_dual_key_union [⟨"company", "9", "Z9"⟩] "company" "7" "uuid-abc" "N1"
    [JsVal.null, JsVal.str " ", JsVal.str "9"]
    (by decide) (by decide) (by decide) (by decide) (by decide) (by decide)
    (by decide)

/-- C6 counterexample: the claim says a committed (entity, legacy_id)
mapping is never re-pointed, but mapPut's conflict clause sets
new_id = excluded.new_id, so committing ("user", "L") -> n1 and then putting
("user", "L") -> n2 changes the stored canonical id from n1 to n2. -/
theorem c6_never_repoints_counterexample :
    mapGet (mapPut [] "user" (JsVal.str "L") "n1") "user" (JsVal.str "L")
      = some "n1" ∧
    mapGet (mapPut (mapPut [] "user" (JsVal.str "L") "n1") "user"
        (JsVal.str "L") "n2") "user" (JsVal.str "L") = some "n2" ∧
    ("n2" : String) ≠ "n1" := by
  decide

/-- C6 amended: mapPut(E, L, M) over a committed mapping re-points it to M
(the conflict clause updates new_id to the given value); the committed
new_id is preserved exactly under the documented caller discipline of
passing the previously resolved id: when the mapping (E, L) -> N exists,
putting resolveId(E, L) leaves it at N. -/
theorem c6_put_repoints_unless_resolved (m : List MapEntry)
    (E L N M fresh : String) (h : mapGet m E (JsVal.str L) = some N) :
    mapGet (mapPut m E (JsVal.str L) M) E (JsVal.str L) = some M ∧
    mapGet (mapPut m E (JsVal.str L)
        (resolveId m E (JsVal.str L) fresh)) E (JsVal.str L) = some N := by
  constructor
  · rw [mapGet_str, mapPut]
    exact mapLookup_putStr_self m E L M
  · have hres : resolveId m E (JsVal.str L) fresh = N := by
      simp [resolveId, h]
    rw [hres, mapGet_str, mapPut]
    exact mapLookup_putStr_self m E L N

/-- Witness for C6 amended at the committed mapping ("user", "L") -> n1:
a put of a different id re-points to it, a put of the resolved id keeps n1. -/
theorem c6_put_repoints_unless_resolved_witness :
    mapGet (mapPut [⟨"user", "L", "n1"⟩] "user" (JsVal.str "L") "n2") "user"
      (JsVal.str "L") = some "n2" ∧
    mapGet (mapPut [⟨"user", "L", "n1"⟩] "user" (JsVal.str "L")
        (resolveId [⟨"user", "L", "n1"⟩] "user" (JsVal.str "L") "fresh-z"))
      "user" (JsVal.str "L") = some "n1" :=
  c6_put_repoints_unless_resolved [⟨"user", "L", "n1"⟩] "user" "L" "n1" "n2"
    "fresh-z" (by decide)

/-- A source row as the engine sees it: a bag of named column values
(mysql2 returns column-name-to-value objects; the engine only assumes the
job's pk column for error reporting). -/
structure Row where
  fields : List (String × JsVal)
deriving DecidableEq

/-- JavaScript property access row[k]: the stored value, or undefined when
the column is absent. -/
def Row.get (r : Row) (k : String) : JsVal :=
  match r.fields.find? fun p => p.1 == k with
  | some p => p.2
  | none => JsVal.undef

/-- String(row[job.pk] ?? "") as built for migration_errors.legacy_id
(index.ts lines 875 and 884). -/
def pkString (pk : String) (r : Row) : String :=
  match r.get pk with
  | JsVal.null => ""
  | JsVal.undef => ""
  | v => jsString v

/-- One write against a destination (application) table, recording which
table, the canonical row id, and the source row it came from.  The per-entity
column transforms are outside the engine core; the claims only concern
whether a destination write happens. -/
structure DestWrite where
  table : String
  rowId : String
  payload : Row
deriving DecidableEq

/-- The outcome of one upsert invocation: the migration map it leaves behind,
the destination writes it performed, and either ok true / ok false (the
boolean the job returns) or error msg (a thrown exception). -/
structure UpResult where
  mm : List MapEntry
  writes : List DestWrite
  result : Except String Bool

/-- A Job (index.ts lines 6-13): key, dependency level, pk column name, the
extraction result (the source query either yields rows or throws), and the
upsert operation over a row and the current migration map. -/
structure JobSpec where
  key : String
  level : Int
  pk : String
  extract : Except String (List Row)
  upsert : Row → List MapEntry → UpResult

/-- One row of migration_runs (sql/control_tables.sql lines 2-14): id,
job_name, status (running / success / failed) and error_message.  Timestamps
and the row counters carry no claim-relevant information. -/
structure RunRow where
  id : Nat
  job_name : String
  status : String
  error_message : Option String
deriving DecidableEq

/-- One row of migration_errors (sql/control_tables.sql lines 38-47). -/
structure ErrorRow where
  run_id : Nat
  job_name : String
  legacy_id : String
  stage : String
  error_message : String
  payload : Row
deriving DecidableEq

/-- One row of migration_checkpoints (sql/control_tables.sql lines 17-22). -/
structure CheckpointRow where
  job_name : String
  last_legacy_id : String
deriving DecidableEq

/-- The engine-owned control state in the target store: migration_runs,
migration_errors, migration_checkpoints, migration_map, plus the log of
destination-table writes. -/
structure EngineState where
  runs : List RunRow
  errors : List ErrorRow
  checkpoints : List CheckpointRow
  mm : List MapEntry
  dest : List DestWrite
deriving DecidableEq

/-- The runJob guard (index.ts line 856): skip when a table filter is set and
differs from the job key. -/
def skipsJob : Option String → JobSpec → Bool
  | none, _ => false
  | some t, j => t != j.key

/-- startRun (index.ts lines 209-215): inserts a migration_runs row; its
bigserial id is the next fresh id and the default status is running. -/
def startRun (st : EngineState) (jobName : String) : EngineState :=
  { st with runs := st.runs ++ [⟨st.runs.length, jobName, "running", none⟩] }

/-- endRun (index.ts lines 217-226): updates the run row with the given id to
the given terminal status and error message. -/
def endRun (st : EngineState) (runId : Nat) (status : String)
    (err : Option String) : EngineState :=
  { st with runs := st.runs.map fun r =>
      if r.id == runId then { r with status := status, error_message := err }
      else r }

/-- The fixed skip reason written for rows whose upsert returns false
(index.ts line 876). -/
def skippedMessage : String :=
  "skipped: upsert returned false (missing FK or mapping)"

/-- The migration_errors row written when an upsert returns false
(index.ts lines 869-879): stage validate, fixed reason, row payload. -/
def mkValidateError (runId : Nat) (job : JobSpec) (r : Row) : ErrorRow :=
  ⟨runId, job.key, pkString job.pk r, "validate", skippedMessage, r⟩

/-- The migration_errors row written when an upsert throws (index.ts lines
882-885): stage load, the exception message, the row payload. -/
def mkLoadError (runId : Nat) (job : JobSpec) (r : Row) (msg : String) :
    ErrorRow :=
  ⟨runId, job.key, pkString job.pk r, "load", msg, r⟩

/-- The outputs of the per-row loop of runJob (index.ts lines 862-889): the
final migration map, the destination writes and migration_errors rows
appended in row order, and the inseridos success counter.  A row whose upsert
returns true increments the counter; ok false appends one validate error;
a throw is caught at the row boundary and appends one load error; in every
case the loop continues with the next row. -/
def runRows (job : JobSpec) (runId : Nat) :
    List MapEntry → List Row → List MapEntry × List DestWrite × List ErrorRow × Nat
  | mm, [] => (mm, [], [], 0)
  | mm, r :: rest =>
    let u := job.upsert r mm
    let tail := runRows job runId u.mm rest
    match u.result with
    | .ok true =>
      (tail.1, u.writes ++ tail.2.1, tail.2.2.1, tail.2.2.2 + 1)
    | .ok false =>
      (tail.1, u.writes ++ tail.2.1,
        mkValidateError runId job r :: tail.2.2.1, tail.2.2.2)
    | .error msg =>
      (tail.1, u.writes ++ tail.2.1,
        mkLoadError runId job r msg :: tail.2.2.1, tail.2.2.2)

/-- runJob (index.ts lines 855-896): after the filter guard, open a running
migration_runs row; if extraction throws, close it as failed with the
message; otherwise process every row and close it as success regardless of
per-row skips and failures. -/
def runJob (job : JobSpec) (filterKey : Option String) (st : EngineState) :
    EngineState :=
  if skipsJob filterKey job then st
  else
    let runId := st.runs.length
    let st1 := startRun st job.key
    match job.extract with
    | .error msg => endRun st1 runId "failed" (some msg)
    | .ok rows =>
      let out := runRows job runId st1.mm rows
      endRun { st1 with
        mm := out.1,
        dest := st1.dest ++ out.2.1,
        errors := st1.errors ++ out.2.2.1 } runId "success" none

/-- Insertion into a list kept in non-decreasing level order: the model of
the comparator sort jobs.sort((a, b) => a.level - b.level). -/
def insertByLevel (j : JobSpec) : List JobSpec → List JobSpec
  | [] => [j]
  | k :: ks => if j.level ≤ k.level then j :: k :: ks else k :: insertByLevel j ks

/-- The level sort of the job registry used by main (index.ts line 902). -/
def sortJobs : List JobSpec → List JobSpec
  | [] => []
  | j :: js => insertByLevel j (sortJobs js)

/-- main (index.ts lines 898-906): run every job of the registry, sorted by
level, sequentially against the shared engine state. -/
def mainExec (registry : List JobSpec) (filterKey : Option String)
    (st : EngineState) : EngineState :=
  (sortJobs registry).foldl (fun s j => runJob j filterKey s) st

/-- Start / finish events of one job execution, used to state the temporal
tier-ordering guarantee of the sequential orchestrator. -/
inductive Event where
  | jobStart (key : String) (level : Int)
  | jobFinish (key : String) (level : Int)
deriving DecidableEq

/-- The dependency level an event belongs to. -/
def Event.level : Event → Int
  | .jobStart _ l => l
  | .jobFinish _ l => l

/-- The events one job contributes: main awaits runJob, so a job that is not
filtered out starts and finishes before the next job is considered. -/
def jobTrace (filterKey : Option String) (j : JobSpec) : List Event :=
  if skipsJob filterKey j then []
  else [Event.jobStart j.key j.level, Event.jobFinish j.key j.level]

/-- Concatenated event trace of a sequential job list. -/
def traceOf (filterKey : Option String) : List JobSpec → List Event
  | [] => []
  | j :: js => jobTrace filterKey j ++ traceOf filterKey js

/-- The full event trace of main: jobs in sorted order, sequentially. -/
def mainTrace (registry : List JobSpec) (filterKey : Option String) :
    List Event :=
  traceOf filterKey (sortJobs registry)

theorem mem_insertByLevel (x j : JobSpec) (l : List JobSpec) :
    x ∈ insertByLevel j l ↔ x = j ∨ x ∈ l := by
  induction l with
  | nil => simp [insertByLevel]
  | cons k ks ih =>
    by_cases hle : j.level ≤ k.level
    · simp [insertByLevel, hle, List.mem_cons]
    · simp [insertByLevel, hle, List.mem_cons, ih]
      tauto

theorem pairwise_insertByLevel (j : JobSpec) (l : List JobSpec)
    (h : l.Pairwise fun a b => a.level ≤ b.level) :
    (insertByLevel j l).Pairwise fun a b => a.level ≤ b.level := by
  induction l with
  | nil => simp [insertByLevel]
  | cons k ks ih =>
    rw [List.pairwise_cons] at h
    by_cases hle : j.level ≤ k.level
    · simp only [insertByLevel, if_pos hle]
      rw [List.pairwise_cons]
      refine ⟨?_, ?_⟩
      · intro x hx
        rcases List.mem_cons.mp hx with rfl | hx
        · exact hle
        · exact le_trans hle (h.1 x hx)
      · rw [List.pairwise_cons]
        exact ⟨h.1, h.2⟩
    · simp only [insertByLevel, if_neg hle]
      rw [List.pairwise_cons]
      refine ⟨?_, ih h.2⟩
      intro x hx
      rcases (mem_insertByLevel x j ks).mp hx with rfl | hx
      · exact le_of_not_le hle
      · exact h.1 x hx

theorem perm_insertByLevel (j : JobSpec) (l : List JobSpec) :
    (insertByLevel j l).Perm (j :: l) := by
  induction l with
  | nil => simp [insertByLevel]
  | cons k ks ih =>
    by_cases hle : j.level ≤ k.level
    · simp [insertByLevel, hle]
    · simp only [insertByLevel, if_neg hle]
      exact (ih.cons k).trans (List.Perm.swap j k ks)

theorem sortJobs_perm (l : List JobSpec) : (sortJobs l).Perm l := by
  induction l with
  | nil => exact List.Perm.nil
  | cons j js ih =>
    exact (perm_insertByLevel j (sortJobs js)).trans (ih.cons j)

theorem sortJobs_pairwise (l : List JobSpec) :
    (sortJobs l).Pairwise fun a b => a.level ≤ b.level := by
  induction l with
  | nil => simp [sortJobs]
  | cons j js ih => exact pairwise_insertByLevel j (sortJobs js) ih

theorem level_of_mem_jobTrace (f : Option String) (j : JobSpec) (e : Event)
    (he : e ∈ jobTrace f j) : e.level = j.level := by
  unfold jobTrace at he
  by_cases hs : skipsJob f j = true
  · simp [hs] at he
  · simp [hs] at he
    rcases he with rfl | rfl <;> rfl

theorem mem_traceOf (f : Option String) (l : List JobSpec) (e : Event)
    (he : e ∈ traceOf f l) : ∃ j ∈ l, e.level = j.level := by
  induction l with
  | nil => simp [traceOf] at he
  | cons j js ih =>
    unfold traceOf at he
    rcases List.mem_append.mp he with h1 | h1
    · exact ⟨j, List.mem_cons_self j js, level_of_mem_jobTrace f j e h1⟩
    · rcases ih h1 with ⟨k, hk, hek⟩
      exact ⟨k, List.mem_cons_of_mem j hk, hek⟩

theorem traceOf_pairwise (f : Option String) (l : List JobSpec)
    (h : l.Pairwise fun a b => a.level ≤ b.level) :
    (traceOf f l).Pairwise fun a b => a.level ≤ b.level := by
  induction l with
  | nil => simp [traceOf]
  | cons j js ih =>
    rw [List.pairwise_cons] at h
    unfold traceOf
    rw [List.pairwise_append]
    refine ⟨?_, ih h.2, ?_⟩
    · unfold jobTrace
      by_cases hs : skipsJob f j = true
      · simp [hs]
      · simp [hs, Event.level]
    · intro a ha b hb
      rcases mem_traceOf f js b hb with ⟨k, hk, hbk⟩
      rw [level_of_mem_jobTrace f j a ha, hbk]
      exact h.1 k hk

theorem traceOf_none_length (l : List JobSpec) :
    (traceOf none l).length = 2 * l.length := by
  induction l with
  | nil => rfl
  | cons j js ih =>
    simp [traceOf, jobTrace, skipsJob, ih]
    omega

/-- C3: the orchestrator executes jobs in non-decreasing dependency-level
order.  In the sequential execution trace of main (each awaited runJob
starts and finishes before the next job is considered), every event is
trailed only by events of greater or equal level - hence no job of level
k+1 starts before every job of level at most k has finished; the sorted
execution order is a permutation of the registry, and without a table
filter every registry job contributes its start and finish events. -/
theorem c3_tier_ordering (registry : List JobSpec)
    (filterKey : Option String) :
    (mainTrace registry filterKey).Pairwise (fun a b => a.level ≤ b.level) ∧
    (sortJobs registry).Perm registry ∧
    (mainTrace registry none).length = 2 * registry.length := by
  refine ⟨traceOf_pairwise filterKey (sortJobs registry)
    (sortJobs_pairwise registry), sortJobs_perm registry, ?_⟩
  rw [mainTrace, traceOf_none_length, (sortJobs_perm registry).length_eq]

theorem runJob_checkpoints_eq (j : JobSpec) (f : Option String)
    (s : EngineState) : (runJob j f s).checkpoints = s.checkpoints := by
  unfold runJob
  by_cases hs : skipsJob f j = true
  · rw [if_pos hs]
  · rw [if_neg hs]
    cases hx : j.extract with
    | error msg => simp [hx, endRun, startRun]
    | ok rows => simp [hx, endRun, startRun]

theorem mainExec_checkpoints_eq (registry : List JobSpec)
    (f : Option String) (st : EngineState) :
    (mainExec registry f st).checkpoints = st.checkpoints := by
  unfold mainExec
  generalize sortJobs registry = l
  induction l generalizing st with
  | nil => rfl
  | cons j js ih =>
    rw [List.foldl_cons, ih, runJob_checkpoints_eq]

/-- C7: contrary to the claim (and to the repository's own documented
principle of a per-job checkpoint), the orchestration layer never writes a
migration_checkpoints row: runJob and the whole main execution leave the
checkpoint table exactly as they found it, for every job, filter and
engine state. -/
theorem c7_no_checkpoint_write (job : JobSpec) (filterKey : Option String)
    (st : EngineState) (registry : List JobSpec) :
    (runJob job filterKey st).checkpoints = st.checkpoints ∧
    (mainExec registry filterKey st).checkpoints = st.checkpoints :=
  ⟨runJob_checkpoints_eq job filterKey st,
    mainExec_checkpoints_eq registry filterKey st⟩

theorem listMapSelf {α : Type} (f : α → α) (xs : List α)
    (h : ∀ x ∈ xs, f x = x) : xs.map f = xs := by
  induction xs with
  | nil => rfl
  | cons x xs ih =>
    rw [List.map_cons, h x (List.mem_cons_self x xs),
      ih fun y hy => h y (List.mem_cons_of_mem x hy)]

theorem listGetDAppend {α : Type} (xs : List α) (y d : α) :
    (xs ++ [y]).getD xs.length d = y := by
  induction xs with
  | nil => rfl
  | cons x xs ih => simp only [List.cons_append, List.length_cons,
      List.getD_cons_succ]; exact ih

theorem runJob_runs_eq (job : JobSpec) (f : Option String) (st : EngineState)
    (hrun : skipsJob f job = false) :
    (runJob job f st).runs
      = (st.runs ++ ([⟨st.runs.length, job.key, "running", none⟩] :
            List RunRow)).map
          fun r : RunRow => if r.id == st.runs.length then
            { r with
              status := match job.extract with
                | Except.ok _ => "success"
                | Except.error _ => "failed",
              error_message := match job.extract with
                | Except.ok _ => none
                | Except.error m => some m }
          else r := by
  unfold runJob
  rw [if_neg (by simp [hrun])]
  cases hx : job.extract with
  | error msg => simp [hx, endRun, startRun]
  | ok rows => simp [hx, endRun, startRun]

theorem endRunMapFacts (runsOld : List RunRow) (key S : String)
    (E : Option String) (hwf : ∀ rr ∈ runsOld, rr.id < runsOld.length) :
    ((runsOld ++ ([⟨runsOld.length, key, "running", none⟩] : List RunRow)).map
        (fun r : RunRow => if r.id == runsOld.length then
          { r with status := S, error_message := E } else r)).length
      = runsOld.length + 1 ∧
    ((runsOld ++ ([⟨runsOld.length, key, "running", none⟩] : List RunRow)).map
        (fun r : RunRow => if r.id == runsOld.length then
          { r with status := S, error_message := E } else r)).take
        runsOld.length
      = runsOld ∧
    ((runsOld ++ ([⟨runsOld.length, key, "running", none⟩] : List RunRow)).map
        (fun r : RunRow => if r.id == runsOld.length then
          { r with status := S, error_message := E } else r)).getD
        runsOld.length ⟨0, "", "", none⟩
      = ⟨runsOld.length, key, S, E⟩ := by
  have hself : runsOld.map (fun r : RunRow => if r.id == runsOld.length then
      { r with status := S, error_message := E } else r) = runsOld := by
    refine listMapSelf _ runsOld fun x hx => ?_
    have hne : ¬x.id = runsOld.length := Nat.ne_of_lt (hwf x hx)
    simp [hne]
  refine ⟨by simp, ?_, ?_⟩
  · rw [List.map_append, hself, List.map_singleton]
    exact List.take_left runsOld _
  · rw [List.map_append, hself, List.map_singleton, listGetDAppend]
    simp

/-- C8: run-row lifecycle.  When a job is not filtered out, runJob creates
exactly one new migration_runs row (startRun appends it in running state with
the next fresh id), every run row from earlier job executions is left
untouched (so no run row transitions twice during an engine execution), and
the new row ends in exactly one terminal state: success when extraction
succeeded (error_message null), failed with the exception message when
extraction threw. -/
theorem c8_run_lifecycle (job : JobSpec) (filterKey : Option String)
    (st : EngineState) (hrun : skipsJob filterKey job = false)
    (hwf : ∀ rr ∈ st.runs, rr.id < st.runs.length) :
    (startRun st job.key).runs
      = st.runs ++ [⟨st.runs.length, job.key, "running", none⟩] ∧
    (runJob job filterKey st).runs.length = st.runs.length + 1 ∧
    (runJob job filterKey st).runs.take st.runs.length = st.runs ∧
    ((runJob job filterKey st).runs.getD st.runs.length ⟨0, "", "", none⟩)
      = ⟨st.runs.length, job.key,
          (match job.extract with
           | Except.ok _ => "success"
           | Except.error _ => "failed"),
          (match job.extract with
           | Except.ok _ => none
           | Except.error m => some m)⟩ := by
  have hr := runJob_runs_eq job filterKey st hrun
  have hf := endRunMapFacts st.runs job.key
    (match job.extract with
     | Except.ok _ => "success"
     | Except.error _ => "failed")
    (match job.extract with
     | Except.ok _ => none
     | Except.error m => some m) hwf
  exact ⟨rfl, by rw [hr]; exact hf.1, by rw [hr]; exact hf.2.1,
    by rw [hr]; exact hf.2.2⟩

/-- A minimal engine state shared by the orchestration witnesses: all
control tables empty. -/
def emptyEngine : EngineState := ⟨[], [], [], [], []⟩

/-- A minimal concrete job used by the C8 witness: level-1 state job whose
extraction yields no rows. -/
def stateJobW : JobSpec :=
  ⟨"state", 1, "id", Except.ok [], fun _ mm => ⟨mm, [], Except.ok true⟩⟩

/-- Witness for C8: running the concrete state job on the empty engine state
creates one run row in running state and closes it as success. -/
theorem c8_run_lifecycle_witness :
    (startRun emptyEngine "state").runs
      = emptyEngine.runs
        ++ [⟨emptyEngine.runs.length, "state", "running", none⟩] ∧
    (runJob stateJobW none emptyEngine).runs.length
      = emptyEngine.runs.length + 1 ∧
    (runJob stateJobW none emptyEngine).runs.take emptyEngine.runs.length
      = emptyEngine.runs ∧
    ((runJob stateJobW none emptyEngine).runs.getD emptyEngine.runs.length
        ⟨0, "", "", none⟩)
      = ⟨emptyEngine.runs.length, "state",
          (match stateJobW.extract with
           | Except.ok _ => "success"
           | Except.error _ => "failed"),
          (match stateJobW.extract with
           | Except.ok _ => none
           | Except.error m => some m)⟩ := by
  have h := c8_run_lifecycle stateJobW none emptyEngine (by decide)
    (by intro rr hrr; cases hrr)
  simpa [stateJobW] using h

theorem runRows_append_mm (job : JobSpec) (runId : Nat) (mm : List MapEntry)
    (xs ys : List Row) :
    (runRows job runId mm (xs ++ ys)).1
      = (runRows job runId (runRows job runId mm xs).1 ys).1 := by
  induction xs generalizing mm with
  | nil => simp [runRows]
  | cons x xs ih =>
    simp only [List.cons_append, runRows]
    cases h : (job.upsert x mm).result with
    | ok b => cases b <;> simp [h, ih]
    | error msg => simp [h, ih]

theorem runRows_append_errors (job : JobSpec) (runId : Nat)
    (mm : List MapEntry) (xs ys : List Row) :
    (runRows job runId mm (xs ++ ys)).2.2.1
      = (runRows job runId mm xs).2.2.1
        ++ (runRows job runId (runRows job runId mm xs).1 ys).2.2.1 := by
  induction xs generalizing mm with
  | nil => simp [runRows]
  | cons x xs ih =>
    simp only [List.cons_append, runRows]
    cases h : (job.upsert x mm).result with
    | ok b => cases b <;> simp [h, ih]
    | error msg => simp [h, ih]

theorem runRows_append_writes (job : JobSpec) (runId : Nat)
    (mm : List MapEntry) (xs ys : List Row) :
    (runRows job runId mm (xs ++ ys)).2.1
      = (runRows job runId mm xs).2.1
        ++ (runRows job runId (runRows job runId mm xs).1 ys).2.1 := by
  induction xs generalizing mm with
  | nil => simp [runRows]
  | cons x xs ih =>
    simp only [List.cons_append, runRows]
    cases h : (job.upsert x mm).result with
    | ok b => cases b <;> simp [h, ih]
    | error msg => simp [h, ih]

theorem runRows_append_inserted (job : JobSpec) (runId : Nat)
    (mm : List MapEntry) (xs ys : List Row) :
    (runRows job runId mm (xs ++ ys)).2.2.2
      = (runRows job runId mm xs).2.2.2
        + (runRows job runId (runRows job runId mm xs).1 ys).2.2.2 := by
  induction xs generalizing mm with
  | nil => simp [runRows]
  | cons x xs ih =>
    simp only [List.cons_append, runRows]
    cases h : (job.upsert x mm).result with
    | ok b =>
      cases b <;> simp [h, ih]
      omega
    | error msg => simp [h, ih]

theorem runJob_ok_components (job : JobSpec) (f : Option String)
    (st : EngineState) (rows : List Row)
    (hex : job.extract = Except.ok rows) (hrun : skipsJob f job = false) :
    (runJob job f st).errors
      = st.errors ++ (runRows job st.runs.length st.mm rows).2.2.1 ∧
    (runJob job f st).dest
      = st.dest ++ (runRows job st.runs.length st.mm rows).2.1 ∧
    (runJob job f st).mm = (runRows job st.runs.length st.mm rows).1 := by
  unfold runJob
  rw [if_neg (by simp [hrun])]
  simp [hex, endRun, startRun]

theorem runJob_new_run (job : JobSpec) (f : Option String) (st : EngineState)
    (hrun : skipsJob f job = false) :
    (runJob job f st).runs.getLast?
      = some ⟨st.runs.length, job.key,
          (match job.extract with
           | Except.ok _ => "success"
           | Except.error _ => "failed"),
          (match job.extract with
           | Except.ok _ => none
           | Except.error m => some m)⟩ := by
  rw [runJob_runs_eq job f st hrun, List.map_append, List.map_singleton,
    List.getLast?_concat]
  simp

/-- C4: fault isolation for thrown upserts.  For a job whose extraction
succeeds and a row r whose upsert throws with message msg, runJob records
exactly one migration_errors entry for r - stage load, carrying msg and the
row payload (mkLoadError) - keeps processing every subsequent row (the rows
after r contribute their own errors and destination writes exactly as the
per-row loop prescribes), and still closes the run row as success with no
error message. -/
theorem c4_fault_isolation (job : JobSpec) (st : EngineState)
    (pre post : List Row) (r : Row) (msg : String)
    (hex : job.extract = Except.ok (pre ++ r :: post))
    (hth : ∀ mm, (job.upsert r mm).result = Except.error msg) :
    (runJob job none st).runs.getLast?
      = some ⟨st.runs.length, job.key, "success", none⟩ ∧
    (runJob job none st).runs.length = st.runs.length + 1 ∧
    (runJob job none st).errors
      = st.errors ++ (runRows job st.runs.length st.mm pre).2.2.1
        ++ [mkLoadError st.runs.length job r msg]
        ++ (runRows job st.runs.length
            (job.upsert r (runRows job st.runs.length st.mm pre).1).mm
            post).2.2.1 ∧
    (runJob job none st).dest
      = st.dest ++ (runRows job st.runs.length st.mm pre).2.1
        ++ (job.upsert r (runRows job st.runs.length st.mm pre).1).writes
        ++ (runRows job st.runs.length
            (job.upsert r (runRows job st.runs.length st.mm pre).1).mm
            post).2.1 := by
  have hnew := runJob_new_run job none st rfl
  rw [hex] at hnew
  have hcomp := runJob_ok_components job none st (pre ++ r :: post) hex rfl
  have hlen : (runJob job none st).runs.length = st.runs.length + 1 := by
    rw [runJob_runs_eq job none st rfl]
    simp
  have hu := hth (runRows job st.runs.length st.mm pre).1
  refine ⟨hnew, hlen, ?_, ?_⟩
  · rw [hcomp.1, runRows_append_errors]
    simp only [runRows, hu]
    simp [List.append_assoc]
  · rw [hcomp.2.1, runRows_append_writes]
    simp only [runRows, hu]
    simp [List.append_assoc]

/-- The single-row source payload used by the C4 witness. -/
def rowW : Row := ⟨[("id", JsVal.num 1)]⟩

/-- A concrete job whose only row always throws, used by the C4 witness. -/
def throwJobW : JobSpec :=
  ⟨"user", 1, "id", Except.ok [rowW],
    fun _ mm => ⟨mm, [], Except.error "boom"⟩⟩

/-- Witness for C4: the throwing row yields exactly one load-stage error row
carrying the message and payload, no destination write, and a successful
run. -/
theorem c4_fault_isolation_witness :
    (runJob throwJobW none emptyEngine).runs.getLast?
      = some ⟨0, "user", "success", none⟩ ∧
    (runJob throwJobW none emptyEngine).runs.length = 1 ∧
    (runJob throwJobW none emptyEngine).errors
      = [⟨0, "user", "1", "load", "boom", rowW⟩] ∧
    (runJob throwJobW none emptyEngine).dest = [] := by
  have h := c4_fault_isolation throwJobW emptyEngine [] [] rowW "boom" rfl
    fun _ => rfl
  simpa [emptyEngine, throwJobW, rowW, runRows, mkLoadError, pkString,
    Row.get, jsString] using h

/-- JavaScript truthiness test on a value, as in row.ds_uf || "" (falsy:
null, undefined, empty string, zero). -/
def jsFalsy : JsVal → Bool
  | .null => true
  | .undef => true
  | .str s => s == ""
  | .num n => n == 0

/-- JavaScript truthiness on a string-or-null, as in the guard
if (!userId || !stateId) (index.ts line 442): null and the empty string are
falsy. -/
def jsFalsyOpt : Option String → Bool
  | none => true
  | some s => s == ""

/-- JavaScript String.prototype.toUpperCase as used on ds_uf
(index.ts line 441). -/
def jsToUpper (s : String) : String :=
  ⟨s.data.map Char.toUpper⟩

/-- ctx.stateByUf.get(k) ?? null - the exact-key lookup in the state cache
bootstrapped from the state table (index.ts lines 295-300 and 440-441). -/
def stateLookup (s : List (String × String)) (k : String) : Option String :=
  (s.find? fun p => p.1 == k).map fun p => p.2

/-- String(row.ds_uf || "").toUpperCase() (index.ts line 441). -/
def ufOf (row : Row) : String :=
  jsToUpper (if jsFalsy (row.get "ds_uf") then "" else jsString (row.get "ds_uf"))

/-- The company job upsert (index.ts lines 436-468): resolve the canonical id
from co_seq_empresa, look up the owning user in the identity map and the
state in the UF cache; when either is missing return false before any
destination write; otherwise insert the company row and commit both legacy
keys (mapPutBoth) for the canonical id. -/
def companyUpsert (stateByUf : List (String × String)) (fresh : String)
    (row : Row) (mm : List MapEntry) : UpResult :=
  let id := resolveId mm "company" (row.get "co_seq_empresa") fresh
  let userId := mapGet mm "user" (row.get "user_id")
  let stateId := stateLookup stateByUf (ufOf row)
  if jsFalsyOpt userId || jsFalsyOpt stateId then ⟨mm, [], Except.ok false⟩
  else
    ⟨mapPutBoth mm "company" (row.get "co_seq_empresa") (row.get "id") id,
      [⟨"company", id, row⟩], Except.ok true⟩

/-- The company Job (index.ts lines 430-469): key "company", level 2, pk
co_seq_empresa, with the extraction rows given and the uuidv7 mint for each
row threaded explicitly. -/
def companyJob (stateByUf : List (String × String)) (freshFor : Row → String)
    (rows : List Row) : JobSpec :=
  ⟨"company", 2, "co_seq_empresa", Except.ok rows,
    fun r mm => companyUpsert stateByUf (freshFor r) r mm⟩

/-- C5: missing-dependency skip.  A company row whose required state
reference does not resolve makes the upsert return false with no destination
write and no identity-map change (the guard precedes the insert); in the
orchestration loop such a row contributes exactly one migration_errors entry
with stage validate (mkValidateError, fixed reason, row payload), no
destination write, no success-counter increment, processing continues with
the remaining rows, and the run still closes as success. -/
theorem c5_missing_dependency_skip (stateByUf : List (String × String))
    (freshFor : Row → String) (pre post : List Row) (r : Row)
    (st : EngineState) (mm0 : List MapEntry)
    (hstate : stateLookup stateByUf (ufOf r) = none) :
    let job := companyJob stateByUf freshFor (pre ++ r :: post)
    companyUpsert stateByUf (freshFor r) r mm0
      = ⟨mm0, [], Except.ok false⟩ ∧
    (runJob job none st).errors
      = st.errors ++ (runRows job st.runs.length st.mm pre).2.2.1
        ++ [mkValidateError st.runs.length job r]
        ++ (runRows job st.runs.length
            (runRows job st.runs.length st.mm pre).1 post).2.2.1 ∧
    (runJob job none st).dest
      = st.dest ++ (runRows job st.runs.length st.mm pre).2.1
        ++ (runRows job st.runs.length
            (runRows job st.runs.length st.mm pre).1 post).2.1 ∧
    (runRows job st.runs.length st.mm (pre ++ r :: post)).2.2.2
      = (runRows job st.runs.length st.mm pre).2.2.2
        + (runRows job st.runs.length
            (runRows job st.runs.length st.mm pre).1 post).2.2.2 ∧
    (runJob job none st).runs.getLast?
      = some ⟨st.runs.length, "company", "success", none⟩ := by
  intro job
  have hu : ∀ mm, companyUpsert stateByUf (freshFor r) r mm
      = ⟨mm, [], Except.ok false⟩ := by
    intro mm
    simp [companyUpsert, hstate, jsFalsyOpt]
  have hju : ∀ mm, job.upsert r mm = ⟨mm, [], Except.ok false⟩ :=
    fun mm => hu mm
  have hex : job.extract = Except.ok (pre ++ r :: post) := rfl
  have hcomp := runJob_ok_components job none st (pre ++ r :: post) hex rfl
  refine ⟨hu mm0, ?_, ?_, ?_, ?_⟩
  · rw [hcomp.1, runRows_append_errors]
    simp only [runRows, hju]
    simp [List.append_assoc]
  · rw [hcomp.2.1, runRows_append_writes]
    simp only [runRows, hju]
    simp [List.append_assoc]
  · rw [runRows_append_inserted]
    simp only [runRows, hju]
  · have hnew := runJob_new_run job none st rfl
    simpa using hnew

/-- The company source row used by the C5 witness: its UF "zz" is not in the
bootstrapped state cache. -/
def rowNoStateW : Row :=
  ⟨[("co_seq_empresa", JsVal.num 7), ("user_id", JsVal.num 3),
    ("ds_uf", JsVal.str "zz")]⟩

/-- Witness for C5: the company row with unknown UF is skipped - upsert
false with no writes, one validate error, empty destination, zero success
count, successful run. -/
theorem c5_missing_dependency_skip_witness :
    companyUpsert [("SP", "st-sp")] "fresh-7" rowNoStateW []
      = ⟨[], [], Except.ok false⟩ ∧
    (runJob (companyJob [("SP", "st-sp")] (fun _ => "fresh-7")
        [rowNoStateW]) none emptyEngine).errors
      = [⟨0, "company", "7", "validate", skippedMessage, rowNoStateW⟩] ∧
    (runJob (companyJob [("SP", "st-sp")] (fun _ => "fresh-7")
        [rowNoStateW]) none emptyEngine).dest = [] ∧
    (runRows (companyJob [("SP", "st-sp")] (fun _ => "fresh-7")
        [rowNoStateW]) 0 [] [rowNoStateW]).2.2.2 = 0 ∧
    (runJob (companyJob [("SP", "st-sp")] (fun _ => "fresh-7")
        [rowNoStateW]) none emptyEngine).runs.getLast?
      = some ⟨0, "company", "success", none⟩ := by
  have h := c5_missing_dependency_skip [("SP", "st-sp")] (fun _ => "fresh-7")
    [] [] rowNoStateW emptyEngine [] (by decide)
  simpa [emptyEngine, runRows, mkValidateError, pkString, Row.get,
    rowNoStateW, jsString] using h

end Migration
